import Mathlib

/-!
Shallow embedding of the VCF ingestion layer of
`clinical-variant-annotation` (`src/utils/vcf_parser.py`): the `Variant`
data model, INFO/FORMAT/sample parsing, and the line-by-line record
stream produced by `VCFParser.parse`.

Strings are modelled as Lean `String`s; all splitting and trimming is
implemented structurally over `String.data` so that theorems can be
settled by kernel evaluation on concrete inputs.  Python `dict`s are
modelled as ordered association lists with insert-or-overwrite
semantics.  Python's `float` values never influence any claim, so a
QUAL value is kept as the accepted literal text (equal literals denote
equal floats); Python's `int(...)` is modelled by `pyInt?` returning
`none` exactly when `int` would raise `ValueError`.
-/

set_option maxRecDepth 8000

/-- The whitespace characters stripped by Python's `str.strip()` (ASCII
subset; the source never feeds non-ASCII whitespace to `strip`). -/
def isPySpace (c : Char) : Bool :=
  c = ' ' || c = '\t' || c = '\n' || c = '\r' || c = '\x0b' || c = '\x0c'

/-- Strip trailing whitespace: drop the whitespace suffix of a char list. -/
def dropTrail (l : List Char) : List Char :=
  (l.reverse.dropWhile isPySpace).reverse

/-- Python `str.strip()` on the underlying character list. -/
def stripList (l : List Char) : List Char :=
  dropTrail (l.dropWhile isPySpace)

/-- Python `line.strip()`. -/
def pyStrip (s : String) : String := ⟨stripList s.data⟩

/-- Split a character list on every occurrence of `sep`, keeping empty
segments — the behaviour of Python's `str.split(sep)` for a one-character
separator (every separator used by the parser is one character). -/
def splitOnChar (sep : Char) : List Char → List (List Char)
  | [] => [[]]
  | c :: cs =>
    let r := splitOnChar sep cs
    if c = sep then [] :: r
    else
      match r with
      | [] => [[c]]
      | g :: gs => (c :: g) :: gs

/-- Python `s.split(sep)` for a one-character separator. -/
def splitStr (sep : Char) (s : String) : List String :=
  (splitOnChar sep s.data).map fun cs => ⟨cs⟩

/-- `pre` is a leading segment of `s` — Python `s.startswith(pre)`. -/
def leadsWith : List Char → List Char → Bool
  | [], _ => true
  | _ :: _, [] => false
  | p :: ps, c :: cs => p = c && leadsWith ps cs

/-- Python `s.startswith(pre)`. -/
def pyStarts (pre s : String) : Bool := leadsWith pre.data s.data

/-- Python `s[1:]`. -/
def strTail (s : String) : String := ⟨s.data.drop 1⟩

/-- Python `item.split('=', 1)` combined with the `'=' in item` test:
`some (k, v)` splits at the first `'='`, `none` means no `'='` occurs. -/
def breakOnEq : List Char → Option (List Char × List Char)
  | [] => none
  | c :: cs =>
    if c = '=' then some ([], cs)
    else
      match breakOnEq cs with
      | none => none
      | some (k, v) => some (c :: k, v)

/-- Numeral characters for Python's `str(int)` rendering. -/
def digitChar (n : Nat) : Char :=
  if n = 0 then '0' else if n = 1 then '1' else if n = 2 then '2'
  else if n = 3 then '3' else if n = 4 then '4' else if n = 5 then '5'
  else if n = 6 then '6' else if n = 7 then '7' else if n = 8 then '8'
  else if n = 9 then '9' else '?'

/-- Decimal digits of `n`, most significant first (fuel-structured so that
concrete values reduce in the kernel; `fuel = n + 1` always suffices). -/
def natDigitsAux : Nat → Nat → List Char
  | _, 0 => []
  | n, fuel + 1 =>
    if n < 10 then [digitChar n]
    else natDigitsAux (n / 10) fuel ++ [digitChar (n % 10)]

/-- Decimal rendering of a natural number, as in Python `str`. -/
def natDigits (n : Nat) : List Char := natDigitsAux n (n + 1)

/-- Python `str(i)` for an integer. -/
def intStr : Int → List Char
  | .ofNat n => natDigits n
  | .negSucc m => '-' :: natDigits (m + 1)

/-- Numeric value of a digit character. -/
def charVal (c : Char) : Nat := c.toNat - 48

/-- Value of a most-significant-first digit list. -/
def digitsVal (cs : List Char) : Nat :=
  cs.foldl (fun a c => a * 10 + charVal c) 0

/-- Python `int(s)` on a string: optional surrounding whitespace, optional
sign, then at least one decimal digit; `none` when `int` would raise
`ValueError`.  (Digit-group underscores and non-ASCII digits, which Python
also accepts, never occur in the repository's inputs or in any claim.) -/
def pyInt? (s : String) : Option Int :=
  let cs := stripList s.data
  let (sign, ds) :=
    match cs with
    | '+' :: t => ((1 : Int), t)
    | '-' :: t => ((-1 : Int), t)
    | t => ((1 : Int), t)
  if ds ≠ [] && ds.all (·.isDigit) then some (sign * (digitsVal ds : Int))
  else none

/-- Mantissa part of a Python float literal: `digits [. digits]` or
`. digits`, with at least one digit overall. -/
def mantissaOk (cs : List Char) : Bool :=
  match splitOnChar '.' cs with
  | [a] => !a.isEmpty && a.all (·.isDigit)
  | [a, b] => a.all (·.isDigit) && b.all (·.isDigit) && (!a.isEmpty || !b.isEmpty)
  | _ => false

/-- Exponent part of a Python float literal: optional sign then digits. -/
def expOk (cs : List Char) : Bool :=
  let t := match cs with
    | '+' :: u => u
    | '-' :: u => u
    | u => u
  !t.isEmpty && t.all (·.isDigit)

/-- Split a float literal at its first `e`/`E`, if any. -/
def breakOnExp : List Char → List Char × Option (List Char)
  | [] => ([], none)
  | c :: cs =>
    if c = 'e' || c = 'E' then ([], some cs)
    else
      let r := breakOnExp cs
      (c :: r.1, r.2)

/-- Whether Python's `float(s)` accepts `s` (so `float(fields[5])` does not
raise): optional whitespace and sign, then `inf`/`infinity`/`nan`
(case-insensitive) or a decimal mantissa with optional exponent. -/
def pyFloatOk (s : String) : Bool :=
  let cs := stripList s.data
  let body := match cs with
    | '+' :: t => t
    | '-' :: t => t
    | t => t
  let low := body.map Char.toLower
  if low = ['i', 'n', 'f'] || low = ['i', 'n', 'f', 'i', 'n', 'i', 't', 'y']
      || low = ['n', 'a', 'n'] then true
  else
    match breakOnExp body with
    | (m, none) => mantissaOk m
    | (m, some ex) => mantissaOk m && expOk ex

/-- QUAL parsing (`vcf_parser.py` lines 160-166): `"."` means absent, and a
parse failure is absorbed by `try/except` and also yields absent.  A parsed
float is represented by its accepted literal text, since no claim depends
on the numeric value and equal literals denote equal floats. -/
def parseQual (f5 : String) : Option String :=
  if f5 = "." then none
  else if pyFloatOk f5 then some f5 else none

/-- Insert-or-overwrite on an ordered association list: the semantics of
`d[k] = v` on a Python `dict` (an existing key keeps its position and gets
the new value; a new key is appended). -/
def dinsert {α : Type} (d : List (String × α)) (k : String) (v : α) :
    List (String × α) :=
  if d.any (fun p => p.1 = k) then
    d.map fun p => if p.1 = k then (k, v) else p
  else d ++ [(k, v)]

/-- The key/value contribution of one `;`-separated INFO item
(`vcf_parser.py` lines 108-113): split on the first `'='` when present,
otherwise a flag key mapped to the string `"True"`. -/
def infoItemPair (item : String) : String × String :=
  match breakOnEq item.data with
  | some kv => (⟨kv.1⟩, ⟨kv.2⟩)
  | none => (item, "True")

/-- `VCFParser._parse_info_field` (lines 102-115). -/
def parse_info_field (info_str : String) : List (String × String) :=
  if info_str = "." then []
  else
    (splitStr ';' info_str).foldl
      (fun d item => dinsert d (infoItemPair item).1 (infoItemPair item).2) []

/-- `VCFParser._parse_sample_data` (lines 117-125): `dict(zip(keys, values))`
over the `:`-split FORMAT keys and sample values. -/
def parse_sample_data (format_str sample_str : String) : List (String × String) :=
  if format_str = "." || sample_str = "." then []
  else
    ((splitStr ':' format_str).zip (splitStr ':' sample_str)).foldl
      (fun d p => dinsert d p.1 p.2) []

/-- The `Variant` dataclass (`vcf_parser.py` lines 12-32).  Annotation
fields are carried for fidelity; the parser never populates them. -/
structure Variant where
  chrom : String
  pos : Int
  id : String
  ref : String
  alt : String
  qual : Option String := none
  filter : String := "."
  info : List (String × String) := []
  format : String := ""
  samples : List (String × List (String × String)) := []
  gene : Option String := none
  consequence : Option String := none
  protein_change : Option String := none
  clinical_significance : Option String := none
  allele_frequency : Option String := none
deriving Repr, DecidableEq, Inhabited

/-- `Variant.variant_id` (lines 34-37): the f-string `chrom-pos-ref-alt`. -/
def Variant.variant_id (v : Variant) : String :=
  ⟨v.chrom.data ++ '-' :: intStr v.pos ++ '-' :: v.ref.data ++ '-' :: v.alt.data⟩

/-- `Variant.is_snp` (lines 39-42). -/
def Variant.is_snp (v : Variant) : Bool :=
  v.ref.data.length = 1 && v.alt.data.length = 1

/-- `Variant.is_indel` (lines 44-47). -/
def Variant.is_indel (v : Variant) : Bool :=
  v.ref.data.length ≠ v.alt.data.length

/-- The mutable header state of a `VCFParser` instance: `header_lines` and
`sample_names` (lines 84-85). -/
structure ParserState where
  header_lines : List String
  sample_names : List String
deriving Repr, DecidableEq, Inhabited

/-- The per-sample genotype map built by lines 186-190: for each declared
sample name, in order, an entry parsed from the matching column when that
column exists on the line. -/
def buildSamples (sample_names : List String) (fields : List String) :
    List (String × List (String × String)) :=
  sample_names.enum.foldl
    (fun d p =>
      if p.1 + 9 < fields.length then
        dinsert d p.2 (parse_sample_data (fields.getD 8 "") (fields.getD (p.1 + 9) ""))
      else d)
    []

/-- One `Variant` constructed for one ALT allele of a data line
(lines 171-190): field copies, QUAL/INFO parsing, and — only when the line
has more than 9 fields — the FORMAT string and the sample map. -/
def mkLineVariant (sample_names : List String) (fields : List String)
    (pos : Int) (alt : String) : Variant :=
  let v : Variant :=
    { chrom := fields.getD 0 ""
      pos := pos
      id := fields.getD 2 ""
      ref := fields.getD 3 ""
      alt := alt
      qual := parseQual (fields.getD 5 "")
      filter := fields.getD 6 ""
      info := parse_info_field (fields.getD 7 "") }
  if 9 < fields.length then
    { v with format := fields.getD 8 "", samples := buildSamples sample_names fields }
  else v

/-- One iteration of the loop body of `VCFParser.parse` (lines 135-192) on
a raw line: the updated header state and `some` emitted variants, or
`none` when `int(fields[1])` raises `ValueError` and aborts the stream. -/
def processLine (st : ParserState) (rawLine : String) :
    ParserState × Option (List Variant) :=
  let line := pyStrip rawLine
  if line = "" then (st, some [])
  else if pyStarts "##" line then
    ({ st with header_lines := st.header_lines ++ [line] }, some [])
  else if pyStarts "#CHROM" line then
    let columns := splitStr '\t' (strTail line)
    if 9 < columns.length then ({ st with sample_names := columns.drop 9 }, some [])
    else (st, some [])
  else
    let fields := splitStr '\t' line
    if fields.length < 8 then (st, some [])
    else
      match pyInt? (fields.getD 1 "") with
      | none => (st, none)
      | some p =>
        (st, some ((splitStr ',' (fields.getD 4 "")).map (mkLineVariant st.sample_names fields p)))

/-- Outcome of driving `VCFParser.parse` over a list of raw lines: final
header state, the variants yielded in order, and whether the iteration was
aborted by an uncaught exception. -/
structure RunResult where
  state : ParserState
  variants : List Variant
  aborted : Bool
deriving Repr, DecidableEq, Inhabited

/-- Drive `VCFParser.parse` over the remaining raw lines from a given
header state. -/
def parseRun (st : ParserState) : List String → RunResult
  | [] => ⟨st, [], false⟩
  | l :: ls =>
    match processLine st l with
    | (st', none) => ⟨st', [], true⟩
    | (st', some vs) =>
      let r := parseRun st' ls
      ⟨r.state, vs ++ r.variants, r.aborted⟩

/-- A full run of `VCFParser.parse` on a freshly constructed parser
(`header_lines` and `sample_names` start empty, lines 84-85). -/
def parseFile (lines : List String) : RunResult :=
  parseRun ⟨[], []⟩ lines

/-- Spec-side definition for claim C9, following the spec's words: expose
"a sequence of text lines with trailing line terminators stripped" — i.e.
remove only a trailing run of `\n`/`\r`, nothing else.  It is compared
against the source's `line.strip()` behaviour. -/
def stripLineTerminators (s : String) : String :=
  ⟨(s.data.reverse.dropWhile fun c => c = '\n' || c = '\r').reverse⟩

/-! ### Helper lemmas -/

lemma leadsWith_two {a b : Char} {ps cs : List Char}
    (h : leadsWith (a :: b :: ps) cs = true) : ∃ t, cs = a :: b :: t := by
  match cs with
  | [] => simp [leadsWith] at h
  | [c] => simp [leadsWith] at h
  | c :: d :: t =>
    simp [leadsWith] at h
    exact ⟨t, by rw [h.1, h.2.1]⟩

lemma pyStarts_meta_ne_empty {s : String} (h : pyStarts "##" s = true) : s ≠ "" := by
  intro he
  subst he
  exact absurd h (by decide)

lemma pyStarts_chromHeader_ne_empty {s : String} (h : pyStarts "#CHROM" s = true) :
    s ≠ "" := by
  intro he
  subst he
  exact absurd h (by decide)

lemma pyStarts_chromHeader_not_meta {s : String} (h : pyStarts "#CHROM" s = true) :
    pyStarts "##" s = false := by
  rw [pyStarts, show ("#CHROM" : String).data = '#' :: 'C' :: ['H', 'R', 'O', 'M'] from rfl]
    at h
  obtain ⟨t, ht⟩ := leadsWith_two h
  rw [pyStarts, show ("##" : String).data = '#' :: '#' :: [] from rfl, ht]
  simp [leadsWith]

/-- The data-line branch of `processLine`, under the conditions that route a
line there. -/
lemma processLine_data (st : ParserState) (l : String)
    (he : pyStrip l ≠ "")
    (h2 : pyStarts "##" (pyStrip l) = false)
    (h3 : pyStarts "#CHROM" (pyStrip l) = false)
    (hlen : 8 ≤ (splitStr '\t' (pyStrip l)).length) :
    processLine st l =
      match pyInt? ((splitStr '\t' (pyStrip l)).getD 1 "") with
      | none => (st, none)
      | some p =>
        (st, some ((splitStr ',' ((splitStr '\t' (pyStrip l)).getD 4 "")).map
          (mkLineVariant st.sample_names (splitStr '\t' (pyStrip l)) p))) := by
  unfold processLine
  simp [he, h2, h3, Nat.not_lt.mpr hlen]

/-- Every variant emitted for one line is `mkLineVariant` at some ALT
allele of a well-formed data line. -/
lemma mem_processLine {st : ParserState} {l : String} {v : Variant}
    (hv : v ∈ (processLine st l).2.getD []) :
    ∃ p a,
      pyInt? ((splitStr '\t' (pyStrip l)).getD 1 "") = some p ∧
      a ∈ splitStr ',' ((splitStr '\t' (pyStrip l)).getD 4 "") ∧
      8 ≤ (splitStr '\t' (pyStrip l)).length ∧
      v = mkLineVariant st.sample_names (splitStr '\t' (pyStrip l)) p a := by
  by_cases he : pyStrip l = ""
  · simp [processLine, he] at hv
  · cases h2 : pyStarts "##" (pyStrip l) with
    | true => simp [processLine, he, h2] at hv
    | false =>
      cases h3 : pyStarts "#CHROM" (pyStrip l) with
      | true =>
        by_cases hc : 9 < (splitStr '\t' (strTail (pyStrip l))).length <;>
          simp [processLine, he, h2, h3, hc] at hv
      | false =>
        by_cases hlen : (splitStr '\t' (pyStrip l)).length < 8
        · simp [processLine, he, h2, h3, hlen] at hv
        · rw [processLine_data st l he h2 h3 (Nat.le_of_not_lt hlen)] at hv
          cases hpi : pyInt? ((splitStr '\t' (pyStrip l)).getD 1 "") with
          | none => rw [hpi] at hv; simp at hv
          | some p =>
            rw [hpi] at hv
            simp only [Option.getD_some, List.mem_map] at hv
            obtain ⟨a, ha, hva⟩ := hv
            exact ⟨p, a, rfl, ha, Nat.le_of_not_lt hlen, hva.symm⟩

lemma mkLineVariant_chrom (ns fields : List String) (p : Int) (a : String) :
    (mkLineVariant ns fields p a).chrom = fields.getD 0 "" := by
  unfold mkLineVariant
  split <;> rfl

lemma mkLineVariant_pos (ns fields : List String) (p : Int) (a : String) :
    (mkLineVariant ns fields p a).pos = p := by
  unfold mkLineVariant
  split <;> rfl

lemma mkLineVariant_ref (ns fields : List String) (p : Int) (a : String) :
    (mkLineVariant ns fields p a).ref = fields.getD 3 "" := by
  unfold mkLineVariant
  split <;> rfl

lemma mkLineVariant_alt (ns fields : List String) (p : Int) (a : String) :
    (mkLineVariant ns fields p a).alt = a := by
  unfold mkLineVariant
  split <;> rfl

lemma mkLineVariant_format (ns fields : List String) (p : Int) (a : String) :
    (mkLineVariant ns fields p a).format =
      if 9 < fields.length then fields.getD 8 "" else "" := by
  unfold mkLineVariant
  split <;> simp_all

lemma mkLineVariant_samples (ns fields : List String) (p : Int) (a : String) :
    (mkLineVariant ns fields p a).samples =
      if 9 < fields.length then buildSamples ns fields else [] := by
  unfold mkLineVariant
  split <;> simp_all

/-- `processLine` withholds its variants (modelling the uncaught
`ValueError` from `int(fields[1])`) exactly on a non-empty non-header line
with at least 8 tab-separated fields whose POS field is not an integer. -/
lemma processLine_none_iff (st : ParserState) (l : String) :
    (processLine st l).2 = none ↔
      (pyStrip l ≠ "" ∧ pyStarts "##" (pyStrip l) = false ∧
       pyStarts "#CHROM" (pyStrip l) = false ∧
       8 ≤ (splitStr '\t' (pyStrip l)).length ∧
       pyInt? ((splitStr '\t' (pyStrip l)).getD 1 "") = none) := by
  by_cases he : pyStrip l = ""
  · simp [processLine, he]
  · cases h2 : pyStarts "##" (pyStrip l) with
    | true => simp [processLine, he, h2]
    | false =>
      cases h3 : pyStarts "#CHROM" (pyStrip l) with
      | true =>
        by_cases hc : 9 < (splitStr '\t' (strTail (pyStrip l))).length <;>
          simp [processLine, he, h2, h3, hc]
      | false =>
        by_cases hlen : (splitStr '\t' (pyStrip l)).length < 8
        · simp [processLine, he, h2, h3, hlen, Nat.not_le.mpr hlen]
        · rw [processLine_data st l he h2 h3 (Nat.le_of_not_lt hlen)]
          cases hpi : pyInt? ((splitStr '\t' (pyStrip l)).getD 1 "") <;>
            simp [he, h2, h3, Nat.le_of_not_lt hlen]

/-- Whether a line aborts the stream does not depend on the header state. -/
lemma processLine_none_indep (st st' : ParserState) (l : String) :
    (processLine st l).2 = none ↔ (processLine st' l).2 = none := by
  rw [processLine_none_iff, processLine_none_iff]

/-- A run aborts exactly when some line of the file raises. -/
lemma parseRun_aborted_iff (ls : List String) :
    ∀ st st' : ParserState,
      (parseRun st ls).aborted = true ↔ ∃ l ∈ ls, (processLine st' l).2 = none := by
  induction ls with
  | nil => intro st st'; simp [parseRun]
  | cons l ls ih =>
    intro st st'
    cases hpl : processLine st l with
    | mk st1 o =>
      cases o with
      | none =>
        simp only [parseRun, hpl]
        constructor
        · intro _
          exact ⟨l, List.mem_cons_self l ls,
            (processLine_none_indep st st' l).mp (by rw [hpl])⟩
        · intro _; trivial
      | some vs =>
        simp only [parseRun, hpl]
        rw [ih st1 st']
        constructor
        · rintro ⟨x, hx, hfx⟩
          exact ⟨x, List.mem_cons_of_mem _ hx, hfx⟩
        · rintro ⟨x, hx, hfx⟩
          rcases List.mem_cons.mp hx with rfl | hx'
          · exfalso
            have hnone : (processLine st x).2 = none :=
              (processLine_none_indep st st' x).mpr hfx
            rw [hpl] at hnone
            simp at hnone
          · exact ⟨x, hx', hfx⟩

/-! ### Claims -/

/-- C5: a data line with fewer than 8 tab-separated fields is skipped —
no variant is emitted for it, the header state is unchanged, and the rest
of the file is parsed exactly as if the line were absent, so the next
valid line is still parsed and yielded and the emitted total is the total
over the remaining lines only. -/
theorem C5_short_data_line_skipped (st : ParserState) (l : String) (ls : List String)
    (hlen : (splitStr '\t' (pyStrip l)).length < 8)
    (h2 : pyStarts "##" (pyStrip l) = false)
    (h3 : pyStarts "#CHROM" (pyStrip l) = false) :
    processLine st l = (st, some []) ∧ parseRun st (l :: ls) = parseRun st ls := by
  have hp : processLine st l = (st, some []) := by
    by_cases he : pyStrip l = ""
    · simp [processLine, he]
    · simp [processLine, he, h2, h3, hlen]
  refine ⟨hp, ?_⟩
  simp [parseRun, hp]

/-- Witness for C5: the 2-field line `"bad line"` is skipped and the valid
line after it still parses. -/
theorem C5_witness :
    processLine ⟨[], []⟩ "bad\tline" = (⟨[], []⟩, some []) ∧
    parseRun ⟨[], []⟩ ["bad\tline", "chr1\t5\t.\tA\tT\t.\t.\t."] =
      parseRun ⟨[], []⟩ ["chr1\t5\t.\tA\tT\t.\t.\t."] :=
  C5_short_data_line_skipped ⟨[], []⟩ "bad\tline" ["chr1\t5\t.\tA\tT\t.\t.\t."]
    (by decide) (by decide) (by decide)

/-- C3 counterexample: a `"##"` line after the first emitted record is
appended to `header_lines`, and a late `"#CHROM"` line replaces
`sample_names` — header state is not immutable once records have begun,
and late header-marker lines are not treated as malformed data lines. -/
theorem C3_counterexample :
    (parseFile ["chr1\t5\t.\tA\tT\t.\t.\t."]).variants.length = 1 ∧
    (parseFile ["chr1\t5\t.\tA\tT\t.\t.\t."]).state.header_lines = [] ∧
    (parseFile ["chr1\t5\t.\tA\tT\t.\t.\t.", "##late"]).state.header_lines = ["##late"] ∧
    (parseFile ["chr1\t5\t.\tA\tT\t.\t.\t.",
        "#CHROM\tPOS\tID\tREF\tALT\tQUAL\tFILTER\tINFO\tFORMAT\tS1"]).state.sample_names
      = ["S1"] := by decide

/-- C3 as amended: lines starting with `"##"` or `"#CHROM"` are processed
as header lines wherever they occur in the file — from any header state
(including one reached after records have been emitted) a `"##"` line is
appended to `header_lines`, and a `"#CHROM"` line with more than 9 columns
replaces `sample_names`. -/
theorem C3_header_lines_reparsed_anywhere (st : ParserState) (l : String) :
    (pyStarts "##" (pyStrip l) = true →
      processLine st l =
        ({ st with header_lines := st.header_lines ++ [pyStrip l] }, some [])) ∧
    (pyStarts "#CHROM" (pyStrip l) = true →
      (processLine st l).2 = some [] ∧
      (processLine st l).1.header_lines = st.header_lines ∧
      (processLine st l).1.sample_names =
        (if 9 < (splitStr '\t' (strTail (pyStrip l))).length
         then (splitStr '\t' (strTail (pyStrip l))).drop 9
         else st.sample_names)) := by
  constructor
  · intro h
    have he := pyStarts_meta_ne_empty h
    simp [processLine, he, h]
  · intro h
    have he := pyStarts_chromHeader_ne_empty h
    have h2 := pyStarts_chromHeader_not_meta h
    by_cases hc : 9 < (splitStr '\t' (strTail (pyStrip l))).length <;>
      simp [processLine, he, h2, h, hc]

/-- Witness for C3: a `"##"` line arriving at a non-empty header state is
still appended to it. -/
theorem C3_witness :
    processLine ⟨["##a"], ["S"]⟩ "##meta" = (⟨["##a", "##meta"], ["S"]⟩, some []) :=
  (C3_header_lines_reparsed_anywhere ⟨["##a"], ["S"]⟩ "##meta").1 (by decide)

/-- C2 counterexample: a data line with 8 tab-separated fields whose POS
field is `"x"` makes the stream raise (`int("x")` raises `ValueError`):
the run is aborted and the valid line after it is never yielded, so
per-line failures are not all absorbed locally. -/
theorem C2_counterexample :
    ((splitStr '\t' (pyStrip "c\tx\t.\tA\tT\t.\t.\t.")).length = 8) ∧
    (parseFile ["c\tx\t.\tA\tT\t.\t.\t.", "chr2\t7\t.\tG\tC\t.\t.\t."]).aborted = true ∧
    (parseFile ["c\tx\t.\tA\tT\t.\t.\t.", "chr2\t7\t.\tG\tC\t.\t.\t."]).variants = [] := by
  decide

/-- C2 as amended: iterating `parse` raises only on a non-empty non-header
line with at least 8 tab-separated fields whose POS field is not a valid
integer (the uncaught `ValueError` of `int(fields[1])`), and a run aborts
exactly when the file contains such a line; every other per-line
malformation is absorbed and iteration continues. -/
theorem C2_raise_only_on_bad_pos (st : ParserState) (l : String) (ls : List String) :
    ((processLine st l).2 = none ↔
      (pyStrip l ≠ "" ∧ pyStarts "##" (pyStrip l) = false ∧
       pyStarts "#CHROM" (pyStrip l) = false ∧
       8 ≤ (splitStr '\t' (pyStrip l)).length ∧
       pyInt? ((splitStr '\t' (pyStrip l)).getD 1 "") = none)) ∧
    ((parseRun st ls).aborted = true ↔ ∃ l' ∈ ls, (processLine st l').2 = none) :=
  ⟨processLine_none_iff st l, parseRun_aborted_iff ls st st⟩

/-- Witness for C2: the characterization applied at a concrete bad-POS
line. -/
theorem C2_witness : (processLine ⟨[], []⟩ "c\ty\t.\tA\tT\t.\t.\t.").2 = none :=
  (C2_raise_only_on_bad_pos ⟨[], []⟩ "c\ty\t.\tA\tT\t.\t.\t." []).1.mpr
    ⟨by decide, by decide, by decide, by decide, by decide⟩

/-- C1 counterexample: a line with 8 tab-separated fields and two ALT
alleles yields 0 variants (not 2) because its POS field `"q"` makes
`int(fields[1])` raise, aborting the stream. -/
theorem C1_counterexample :
    ((splitStr '\t' (pyStrip "c\tq\t.\tA\tT,G\t.\t.\t.")).length = 8) ∧
    (splitStr ',' ((splitStr '\t' (pyStrip "c\tq\t.\tA\tT,G\t.\t.\t.")).getD 4 "") =
      ["T", "G"]) ∧
    (parseFile ["c\tq\t.\tA\tT,G\t.\t.\t."]).variants = [] ∧
    (parseFile ["c\tq\t.\tA\tT,G\t.\t.\t."]).aborted = true := by decide

/-- C1 as amended: for a data line with at least 8 tab-separated fields
whose POS field parses as an integer, `parse` yields exactly one variant
per comma-separated ALT allele, in ALT order (the map over the split ALT
field), each variant carries its allele in `alt`, and any two of them
differ only in `alt` (overwriting `alt` turns one into the other). -/
theorem C1_multiallelic_fanout (st : ParserState) (l : String) (p : Int)
    (he : pyStrip l ≠ "")
    (h2 : pyStarts "##" (pyStrip l) = false)
    (h3 : pyStarts "#CHROM" (pyStrip l) = false)
    (hlen : 8 ≤ (splitStr '\t' (pyStrip l)).length)
    (hpos : pyInt? ((splitStr '\t' (pyStrip l)).getD 1 "") = some p) :
    processLine st l =
      (st, some ((splitStr ',' ((splitStr '\t' (pyStrip l)).getD 4 "")).map
        (mkLineVariant st.sample_names (splitStr '\t' (pyStrip l)) p))) ∧
    (∀ a, (mkLineVariant st.sample_names (splitStr '\t' (pyStrip l)) p a).alt = a) ∧
    (∀ a a',
      { mkLineVariant st.sample_names (splitStr '\t' (pyStrip l)) p a with alt := a' } =
        mkLineVariant st.sample_names (splitStr '\t' (pyStrip l)) p a') := by
  refine ⟨?_, fun a => mkLineVariant_alt _ _ _ _, fun a a' => ?_⟩
  · rw [processLine_data st l he h2 h3 hlen, hpos]
  · unfold mkLineVariant
    split <;> rfl

/-- Witness for C1: the two-allele line `chr1 6 . A T,G . . .` emits the
map over its split ALT field. -/
theorem C1_witness :
    processLine ⟨[], []⟩ "chr1\t6\t.\tA\tT,G\t.\t.\t." =
      (⟨[], []⟩,
       some ((splitStr ',' ((splitStr '\t' (pyStrip "chr1\t6\t.\tA\tT,G\t.\t.\t.")).getD 4 "")).map
        (mkLineVariant [] (splitStr '\t' (pyStrip "chr1\t6\t.\tA\tT,G\t.\t.\t.")) 6))) :=
  (C1_multiallelic_fanout ⟨[], []⟩ "chr1\t6\t.\tA\tT,G\t.\t.\t." 6
    (by decide) (by decide) (by decide) (by decide) (by decide)).1

/-- C4 counterexample: the 8-field line `c 0 . <empty> <empty> . . .`
emits one variant with `pos = 0`, empty `ref` and empty `alt` — the
claimed invariants are not enforced. -/
theorem C4_counterexample :
    (parseFile ["c\t0\t.\t\t\t.\t.\t."]).variants.length = 1 ∧
    ((parseFile ["c\t0\t.\t\t\t.\t.\t."]).variants.getD 0 default).pos = 0 ∧
    ((parseFile ["c\t0\t.\t\t\t.\t.\t."]).variants.getD 0 default).ref = "" ∧
    ((parseFile ["c\t0\t.\t\t\t.\t.\t."]).variants.getD 0 default).alt = "" := by decide

/-- C4 as amended: every emitted variant copies its fields verbatim —
`pos` is exactly the integer the POS field parses to, `ref` is the 4th
tab-separated field and `alt` is one of the comma-split ALT alleles, with
no validation, so `pos ≥ 1` and non-empty `ref`/`alt` hold only when the
input line satisfies them. -/
theorem C4_fields_copied_verbatim (st : ParserState) (l : String) (v : Variant)
    (hv : v ∈ (processLine st l).2.getD []) :
    pyInt? ((splitStr '\t' (pyStrip l)).getD 1 "") = some v.pos ∧
    v.ref = (splitStr '\t' (pyStrip l)).getD 3 "" ∧
    v.alt ∈ splitStr ',' ((splitStr '\t' (pyStrip l)).getD 4 "") := by
  obtain ⟨p, a, hp, ha, _, hva⟩ := mem_processLine hv
  subst hva
  rw [mkLineVariant_pos, mkLineVariant_ref, mkLineVariant_alt]
  exact ⟨hp, rfl, ha⟩

/-- Witness for C4: the variant emitted for `chr1 9 . A T . . .` carries
the POS/REF/ALT of that line. -/
theorem C4_witness :
    pyInt? ((splitStr '\t' (pyStrip "chr1\t9\t.\tA\tT\t.\t.\t.")).getD 1 "") =
      some ({ chrom := "chr1", pos := 9, id := ".", ref := "A", alt := "T" } : Variant).pos ∧
    ({ chrom := "chr1", pos := 9, id := ".", ref := "A", alt := "T" } : Variant).ref =
      (splitStr '\t' (pyStrip "chr1\t9\t.\tA\tT\t.\t.\t.")).getD 3 "" ∧
    ({ chrom := "chr1", pos := 9, id := ".", ref := "A", alt := "T" } : Variant).alt ∈
      splitStr ',' ((splitStr '\t' (pyStrip "chr1\t9\t.\tA\tT\t.\t.\t.")).getD 4 "") :=
  C4_fields_copied_verbatim ⟨[], []⟩ "chr1\t9\t.\tA\tT\t.\t.\t."
    { chrom := "chr1", pos := 9, id := ".", ref := "A", alt := "T" } (by decide)

lemma mem_dinsert_key {α : Type} {d : List (String × α)} {k : String} {v : α}
    {q : String × α} (h : q ∈ dinsert d k v) : q.1 = k ∨ ∃ r ∈ d, r.1 = q.1 := by
  unfold dinsert at h
  split at h
  · obtain ⟨r, hr, hrq⟩ := List.mem_map.mp h
    by_cases hk : r.1 = k
    · left
      rw [← hrq]
      simp [hk]
    · right
      exact ⟨r, hr, by rw [← hrq]; simp [hk]⟩
  · rcases List.mem_append.mp h with h' | h'
    · right
      exact ⟨q, h', rfl⟩
    · left
      simp only [List.mem_singleton] at h'
      rw [h']

lemma foldl_keys_invariant {α β : Type} (P : String → Prop)
    (f : List (String × α) → β → List (String × α)) :
    ∀ (l : List β) (acc : List (String × α)),
      (∀ b ∈ l, ∀ acc', (∀ q ∈ acc', P q.1) → ∀ q ∈ f acc' b, P q.1) →
      (∀ q ∈ acc, P q.1) →
      ∀ q ∈ l.foldl f acc, P q.1 := by
  intro l
  induction l with
  | nil => intro acc _ hacc q hq; exact hacc q hq
  | cons b bs ih =>
    intro acc hf hacc q hq
    rw [List.foldl_cons] at hq
    exact ih (f acc b) (fun b' hb' => hf b' (List.mem_cons_of_mem _ hb'))
      (hf b (List.mem_cons_self _ _) acc hacc) q hq

/-- Keys of the sample map built for a line: each comes from the `i`-th
declared sample name, and only when the line has a field at index `9+i`. -/
lemma buildSamples_key {ns fields : List String} {n : String}
    {d : List (String × String)} (h : (n, d) ∈ buildSamples ns fields) :
    ∃ i, i < ns.length ∧ ns.getD i "" = n ∧ 9 + i < fields.length := by
  unfold buildSamples at h
  refine foldl_keys_invariant
    (fun k => ∃ i, i < ns.length ∧ ns.getD i "" = k ∧ 9 + i < fields.length)
    _ ns.enum [] ?_ (by simp) (n, d) h
  intro b hb acc' hacc' q hq
  split at hq
  · rcases mem_dinsert_key hq with hk | ⟨r, hr, hrq⟩
    · have hb' : ns[b.1]? = some b.2 := List.mem_enum_iff_getElem?.mp hb
      refine ⟨b.1, ?_, ?_, ?_⟩
      · exact (List.getElem?_eq_some.mp hb').choose
      · rw [List.getD_eq_getElem?_getD, hb', Option.getD_some, hk]
      · omega
    · rw [← hrq]
      exact hacc' r hr
  · exact hacc' q hq

/-- C10: a data line with at most 9 fields yields variants with empty
`format` and empty `samples`, even when a 9th (FORMAT) field is present;
and in general a sample-map entry exists for the `i`-th declared sample
name only if the line has a field at index `9+i`. -/
theorem C10_format_and_samples_gating (st : ParserState) (l : String) (v : Variant)
    (hv : v ∈ (processLine st l).2.getD []) :
    ((splitStr '\t' (pyStrip l)).length ≤ 9 → v.format = "" ∧ v.samples = []) ∧
    (∀ n d, (n, d) ∈ v.samples →
      ∃ i, i < st.sample_names.length ∧ st.sample_names.getD i "" = n ∧
        9 + i < (splitStr '\t' (pyStrip l)).length) := by
  obtain ⟨p, a, hp, ha, hlen, hva⟩ := mem_processLine hv
  subst hva
  constructor
  · intro h9
    rw [mkLineVariant_format, mkLineVariant_samples, if_neg (by omega), if_neg (by omega)]
    exact ⟨rfl, rfl⟩
  · intro n d hnd
    rw [mkLineVariant_samples] at hnd
    by_cases h9 : 9 < (splitStr '\t' (pyStrip l)).length
    · rw [if_pos h9] at hnd
      exact buildSamples_key hnd
    · rw [if_neg h9] at hnd
      simp at hnd

/-- Witness for C10: the 9-field line `c 1 . A T . . . GT` emits a variant
with empty `format` and `samples` although a FORMAT field is present. -/
theorem C10_witness :
    (((splitStr '\t' (pyStrip "c\t1\t.\tA\tT\t.\t.\t.\tGT")).length ≤ 9 →
      ({ chrom := "c", pos := 1, id := ".", ref := "A", alt := "T" } : Variant).format = "" ∧
      ({ chrom := "c", pos := 1, id := ".", ref := "A", alt := "T" } : Variant).samples = []) ∧
    (∀ n d,
      (n, d) ∈ ({ chrom := "c", pos := 1, id := ".", ref := "A", alt := "T" } : Variant).samples →
      ∃ i, i < ([] : List String).length ∧ ([] : List String).getD i "" = n ∧
        9 + i < (splitStr '\t' (pyStrip "c\t1\t.\tA\tT\t.\t.\t.\tGT")).length)) :=
  C10_format_and_samples_gating ⟨[], []⟩ "c\t1\t.\tA\tT\t.\t.\t.\tGT"
    { chrom := "c", pos := 1, id := ".", ref := "A", alt := "T" } (by decide)

lemma dinsert_of_not_mem {α : Type} {d : List (String × α)} {k : String} {v : α}
    (h : ∀ q ∈ d, q.1 ≠ k) : dinsert d k v = d ++ [(k, v)] := by
  unfold dinsert
  rw [if_neg]
  intro hc
  rw [List.any_eq_true] at hc
  obtain ⟨q, hq, hqk⟩ := hc
  exact h q hq (by simpa using hqk)

/-- Repeated `dict` insertion of pairwise-distinct keys appends them in
order. -/
lemma foldl_dinsert_eq_append {α : Type} :
    ∀ (l acc : List (String × α)),
      ((acc ++ l).map Prod.fst).Nodup →
      l.foldl (fun d p => dinsert d p.1 p.2) acc = acc ++ l := by
  intro l
  induction l with
  | nil => intro acc _; simp
  | cons p ps ih =>
    intro acc h
    have hnot : ∀ q ∈ acc, q.1 ≠ p.1 := by
      rw [List.map_append, List.nodup_append] at h
      intro q hq he
      exact h.2.2 (List.mem_map_of_mem Prod.fst hq)
        (by rw [he]; exact List.mem_map_of_mem Prod.fst (List.mem_cons_self p ps))
    rw [List.foldl_cons, dinsert_of_not_mem hnot]
    have h' : (((acc ++ [p]) ++ ps).map Prod.fst).Nodup := by
      rw [List.append_assoc]
      simpa using h
    rw [show (p.1, p.2) = p from rfl, ih (acc ++ [p]) h']
    simp

lemma breakOnEq_none_iff {cs : List Char} : breakOnEq cs = none ↔ '=' ∉ cs := by
  induction cs with
  | nil => simp [breakOnEq]
  | cons c cs ih =>
    by_cases hc : c = '='
    · subst hc
      simp [breakOnEq]
    · rw [breakOnEq, if_neg hc]
      constructor
      · intro h hm
        rcases List.mem_cons.mp hm with he | hm'
        · exact hc he.symm
        · cases hbe : breakOnEq cs with
          | none => exact (ih.mp hbe) hm'
          | some kv => rw [hbe] at h; simp at h
      · intro hm
        have hcs : '=' ∉ cs := fun h' => hm (List.mem_cons_of_mem _ h')
        rw [ih.mpr hcs]

lemma breakOnEq_append {k v : List Char} (hk : '=' ∉ k) :
    breakOnEq (k ++ '=' :: v) = some (k, v) := by
  induction k with
  | nil => simp [breakOnEq]
  | cons c cs ih =>
    have hc : c ≠ '=' := fun h => hk (by rw [h]; exact List.mem_cons_self _ _)
    have hcs : '=' ∉ cs := fun h => hk (List.mem_cons_of_mem _ h)
    rw [List.cons_append, breakOnEq, if_neg hc, ih hcs]

/-- C6: INFO parsing splits on `";"`, splits each item at its first `"="`
(an item `k=v` with no `"="` in `k` contributes the pair `(k, v)`), maps
items without `"="` to the boolean-true sentinel string `"True"`, and the
whole string `"."` yields an empty mapping; in particular `"DP=50;DB"`
parses to `{"DP": "50", "DB": True}`.  When the item keys are pairwise
distinct the result is exactly the per-item pairs in item order. -/
theorem C6_info_field_parsing :
    parse_info_field "." = [] ∧
    parse_info_field "DP=50;DB" = [("DP", "50"), ("DB", "True")] ∧
    (∀ item : String, '=' ∉ item.data → infoItemPair item = (item, "True")) ∧
    (∀ k v : List Char, '=' ∉ k → infoItemPair ⟨k ++ '=' :: v⟩ = (⟨k⟩, ⟨v⟩)) ∧
    (∀ s : String, s ≠ "." →
      (((splitStr ';' s).map infoItemPair).map Prod.fst).Nodup →
      parse_info_field s = (splitStr ';' s).map infoItemPair) := by
  refine ⟨by decide, by decide, ?_, ?_, ?_⟩
  · intro item h
    unfold infoItemPair
    rw [breakOnEq_none_iff.mpr h]
  · intro k v hk
    unfold infoItemPair
    rw [breakOnEq_append hk]
  · intro s hs hnd
    unfold parse_info_field
    rw [if_neg hs]
    have hfold := foldl_dinsert_eq_append ((splitStr ';' s).map infoItemPair) []
      (by simpa using hnd)
    rw [List.foldl_map] at hfold
    simpa using hfold

/-- Witness for C6: a concrete mixed INFO string parses to its per-item
pairs. -/
theorem C6_witness :
    parse_info_field "AC=2;H2;AF=0.5" = (splitStr ';' "AC=2;H2;AF=0.5").map infoItemPair :=
  C6_info_field_parsing.2.2.2.2 "AC=2;H2;AF=0.5" (by decide) (by decide)

lemma map_fst_zip_sublist {α β : Type} :
    ∀ (l₁ : List α) (l₂ : List β), List.Sublist ((l₁.zip l₂).map Prod.fst) l₁
  | [], _ => by simp
  | _ :: _, [] => by simp
  | a :: as, b :: bs => by
    simp only [List.zip_cons_cons, List.map_cons]
    exact (map_fst_zip_sublist as bs).cons₂ a

/-- C7: the genotype parser yields an empty mapping when FORMAT or the
sample value is the `"."` sentinel, and otherwise (with pairwise-distinct
FORMAT keys, as a `dict` holds) returns exactly the positional zip of the
`":"`-split keys with the `":"`-split values, truncated to the shorter of
the two — a total function, so no exception is possible. -/
theorem C7_genotype_zip (fs ss : String) :
    ((fs = "." ∨ ss = ".") → parse_sample_data fs ss = []) ∧
    (fs ≠ "." → ss ≠ "." → (splitStr ':' fs).Nodup →
      parse_sample_data fs ss = (splitStr ':' fs).zip (splitStr ':' ss)) := by
  constructor
  · intro h
    unfold parse_sample_data
    rcases h with h | h <;> simp [h]
  · intro h1 h2 hnd
    unfold parse_sample_data
    rw [if_neg (by simp [h1, h2])]
    have hkeys :
        ((([] : List (String × String)) ++
          (splitStr ':' fs).zip (splitStr ':' ss)).map Prod.fst).Nodup := by
      simp only [List.nil_append]
      exact List.Nodup.sublist (map_fst_zip_sublist _ _) hnd
    simpa using foldl_dinsert_eq_append ((splitStr ':' fs).zip (splitStr ':' ss)) [] hkeys

/-- Witness for C7: `GT:DP` against `0/1:12`. -/
theorem C7_witness :
    parse_sample_data "GT:DP" "0/1:12" = (splitStr ':' "GT:DP").zip (splitStr ':' "0/1:12") :=
  (C7_genotype_zip "GT:DP" "0/1:12").2 (by decide) (by decide) (by decide)

lemma charVal_digitChar {n : Nat} (h : n < 10) : charVal (digitChar n) = n := by
  interval_cases n <;> decide

lemma digitChar_ne_dash (n : Nat) : digitChar n ≠ '-' := by
  unfold digitChar
  split_ifs <;> decide

lemma digitsVal_append_digit (xs : List Char) (c : Char) :
    digitsVal (xs ++ [c]) = digitsVal xs * 10 + charVal c := by
  unfold digitsVal
  rw [List.foldl_append]
  rfl

lemma digitsVal_natDigitsAux : ∀ fuel n : Nat, n < fuel →
    digitsVal (natDigitsAux n fuel) = n := by
  intro fuel
  induction fuel with
  | zero => intro n h; omega
  | succ f ih =>
    intro n h
    rw [natDigitsAux]
    by_cases h10 : n < 10
    · rw [if_pos h10]
      show digitsVal [digitChar n] = n
      unfold digitsVal
      simp [charVal_digitChar h10]
    · rw [if_neg h10, digitsVal_append_digit]
      have hdiv : n / 10 < f := by omega
      rw [ih (n / 10) hdiv, charVal_digitChar (Nat.mod_lt n (by norm_num))]
      omega

lemma dash_not_mem_natDigitsAux : ∀ fuel n : Nat, '-' ∉ natDigitsAux n fuel := by
  intro fuel
  induction fuel with
  | zero => intro n; simp [natDigitsAux]
  | succ f ih =>
    intro n
    rw [natDigitsAux]
    by_cases h10 : n < 10
    · rw [if_pos h10]
      intro hm
      rw [List.mem_singleton] at hm
      exact digitChar_ne_dash n hm.symm
    · rw [if_neg h10]
      intro hm
      rcases List.mem_append.mp hm with hm' | hm'
      · exact ih (n / 10) hm'
      · rw [List.mem_singleton] at hm'
        exact digitChar_ne_dash (n % 10) hm'.symm

lemma digitsVal_natDigits (n : Nat) : digitsVal (natDigits n) = n :=
  digitsVal_natDigitsAux (n + 1) n (Nat.lt_succ_self n)

lemma natDigits_inj {m n : Nat} (h : natDigits m = natDigits n) : m = n := by
  have hv := digitsVal_natDigits m
  rw [h, digitsVal_natDigits] at hv
  exact hv.symm

lemma dash_not_mem_intStr {p : Int} (hp : 0 ≤ p) : '-' ∉ intStr p := by
  obtain ⟨n, rfl⟩ := Int.eq_ofNat_of_zero_le hp
  exact dash_not_mem_natDigitsAux (n + 1) n

lemma intStr_inj {p q : Int} (hp : 0 ≤ p) (hq : 0 ≤ q) (h : intStr p = intStr q) :
    p = q := by
  obtain ⟨m, rfl⟩ := Int.eq_ofNat_of_zero_le hp
  obtain ⟨n, rfl⟩ := Int.eq_ofNat_of_zero_le hq
  exact congrArg Int.ofNat (natDigits_inj h)

/-- Unique decomposition at a `'-'` separator when the left part is
dash-free. -/
lemma append_dash_inj :
    ∀ {a b r1 r2 : List Char}, '-' ∉ a → '-' ∉ b →
      a ++ '-' :: r1 = b ++ '-' :: r2 → a = b ∧ r1 = r2 := by
  intro a
  induction a with
  | nil =>
    intro b r1 r2 _ hb h
    cases b with
    | nil => simpa using h
    | cons c cs =>
      simp only [List.nil_append, List.cons_append, List.cons.injEq] at h
      exact absurd (List.mem_cons.mpr (Or.inl h.1)) hb
  | cons x xs ih =>
    intro b r1 r2 ha hb h
    cases b with
    | nil =>
      simp only [List.cons_append, List.nil_append, List.cons.injEq] at h
      exact absurd (List.mem_cons.mpr (Or.inl h.1.symm)) ha
    | cons y ys =>
      simp only [List.cons_append, List.cons.injEq] at h
      have hxs : '-' ∉ xs := fun hm => ha (List.mem_cons_of_mem _ hm)
      have hys : '-' ∉ ys := fun hm => hb (List.mem_cons_of_mem _ hm)
      obtain ⟨h1, h2⟩ := ih hxs hys h.2
      exact ⟨by rw [h.1, h1], h2⟩

/-- C8 counterexample: variants parsed from the lines `a-1 2 . b c ...`
and `a 1 . 2-b c ...` have different (chrom, pos, ref, alt) tuples but
the same `variant_id` string `"a-1-2-b-c"` — the identifier is not unique
per tuple when fields contain `"-"`. -/
theorem C8_counterexample :
    (parseFile ["a-1\t2\t.\tb\tc\t.\t.\t."]).variants.length = 1 ∧
    (parseFile ["a\t1\t.\t2-b\tc\t.\t.\t."]).variants.length = 1 ∧
    ((parseFile ["a-1\t2\t.\tb\tc\t.\t.\t."]).variants.getD 0 default).chrom ≠
      ((parseFile ["a\t1\t.\t2-b\tc\t.\t.\t."]).variants.getD 0 default).chrom ∧
    ((parseFile ["a-1\t2\t.\tb\tc\t.\t.\t."]).variants.getD 0 default).pos ≠
      ((parseFile ["a\t1\t.\t2-b\tc\t.\t.\t."]).variants.getD 0 default).pos ∧
    ((parseFile ["a-1\t2\t.\tb\tc\t.\t.\t."]).variants.getD 0 default).variant_id =
      ((parseFile ["a\t1\t.\t2-b\tc\t.\t.\t."]).variants.getD 0 default).variant_id := by
  decide

/-- C8 as amended: `variant_id` is a pure function of
(chrom, pos, ref, alt) — equal tuples always give equal identifiers, so it
is stable across repeated parses — and it is unique per distinct tuple
whenever chrom, ref and alt contain no `'-'` and pos is non-negative;
the counterexample shows collisions otherwise. -/
theorem C8_variant_id_unique_when_dash_free (v w : Variant)
    (hvc : '-' ∉ v.chrom.data) (hvr : '-' ∉ v.ref.data) (_hva : '-' ∉ v.alt.data)
    (hwc : '-' ∉ w.chrom.data) (hwr : '-' ∉ w.ref.data) (_hwa : '-' ∉ w.alt.data)
    (hvp : 0 ≤ v.pos) (hwp : 0 ≤ w.pos) :
    v.variant_id = w.variant_id ↔
      (v.chrom = w.chrom ∧ v.pos = w.pos ∧ v.ref = w.ref ∧ v.alt = w.alt) := by
  constructor
  · intro h
    have hdata := congrArg String.data h
    simp only [Variant.variant_id, List.cons_append, List.append_assoc] at hdata
    obtain ⟨hc, hrest⟩ := append_dash_inj hvc hwc hdata
    obtain ⟨hp, hrest2⟩ :=
      append_dash_inj (dash_not_mem_intStr hvp) (dash_not_mem_intStr hwp) hrest
    obtain ⟨hr, halt⟩ := append_dash_inj hvr hwr hrest2
    exact ⟨congrArg String.mk hc, intStr_inj hvp hwp hp,
      congrArg String.mk hr, congrArg String.mk halt⟩
  · rintro ⟨h1, h2, h3, h4⟩
    unfold Variant.variant_id
    rw [h1, h2, h3, h4]

/-- Witness for C8: two dash-free variants agree in `variant_id` exactly
when their tuples agree. -/
theorem C8_witness :
    (({ chrom := "chr7", pos := 14, id := ".", ref := "A", alt := "T" } : Variant).variant_id =
      ({ chrom := "chr7", pos := 14, id := "x", ref := "A", alt := "T" } : Variant).variant_id ↔
      (({ chrom := "chr7", pos := 14, id := ".", ref := "A", alt := "T" } : Variant).chrom =
        ({ chrom := "chr7", pos := 14, id := "x", ref := "A", alt := "T" } : Variant).chrom ∧
       ({ chrom := "chr7", pos := 14, id := ".", ref := "A", alt := "T" } : Variant).pos =
        ({ chrom := "chr7", pos := 14, id := "x", ref := "A", alt := "T" } : Variant).pos ∧
       ({ chrom := "chr7", pos := 14, id := ".", ref := "A", alt := "T" } : Variant).ref =
        ({ chrom := "chr7", pos := 14, id := "x", ref := "A", alt := "T" } : Variant).ref ∧
       ({ chrom := "chr7", pos := 14, id := ".", ref := "A", alt := "T" } : Variant).alt =
        ({ chrom := "chr7", pos := 14, id := "x", ref := "A", alt := "T" } : Variant).alt)) :=
  C8_variant_id_unique_when_dash_free _ _
    (by decide) (by decide) (by decide) (by decide) (by decide) (by decide)
    (by decide) (by decide)

lemma dropTrail_dropTrail (l : List Char) : dropTrail (dropTrail l) = dropTrail l := by
  unfold dropTrail
  rw [List.reverse_reverse, List.dropWhile_idempotent]

lemma dropWhile_head_false {p : Char → Bool} :
    ∀ l : List Char, l.dropWhile p ≠ [] → p ((l.dropWhile p).headD ' ') = false := by
  intro l
  induction l with
  | nil => intro h; simp at h
  | cons c cs ih =>
    intro h
    by_cases hc : p c = true
    · rw [List.dropWhile_cons, if_pos hc] at h ⊢
      exact ih h
    · rw [List.dropWhile_cons, if_neg hc] at h ⊢
      simpa using hc

lemma dropWhile_eq_self_of_head {p : Char → Bool} (l : List Char)
    (h : l = [] ∨ p (l.headD ' ') = false) : l.dropWhile p = l := by
  rcases h with rfl | h
  · rfl
  · cases l with
    | nil => rfl
    | cons c cs =>
      simp only [List.headD_cons] at h
      rw [List.dropWhile_cons, if_neg (by simp [h])]

lemma dropTrail_isPrefix (l : List Char) : List.IsPrefix (dropTrail l) l := by
  obtain ⟨t, ht⟩ := List.dropWhile_suffix (l := l.reverse) isPySpace
  refine ⟨t.reverse, ?_⟩
  rw [dropTrail, ← List.reverse_append, ht, List.reverse_reverse]

lemma isPrefix_headD {l₁ l₂ : List Char} (h : List.IsPrefix l₁ l₂) (hne : l₁ ≠ []) :
    l₂.headD ' ' = l₁.headD ' ' := by
  obtain ⟨t, rfl⟩ := h
  cases l₁ with
  | nil => exact absurd rfl hne
  | cons c cs => rfl

/-- A stripped line has no leading whitespace left. -/
lemma dropWhile_stripList (l : List Char) :
    (stripList l).dropWhile isPySpace = stripList l := by
  unfold stripList
  apply dropWhile_eq_self_of_head
  by_cases hne : dropTrail (l.dropWhile isPySpace) = []
  · exact Or.inl hne
  · right
    have hAne : l.dropWhile isPySpace ≠ [] := by
      intro h0
      apply hne
      rw [h0]
      rfl
    rw [← isPrefix_headD (dropTrail_isPrefix (l.dropWhile isPySpace)) hne]
    exact dropWhile_head_false l hAne

lemma stripList_idem (l : List Char) : stripList (stripList l) = stripList l := by
  have h1 : stripList (stripList l) = dropTrail (stripList l) := by
    rw [stripList, dropWhile_stripList]
  rw [h1]
  show dropTrail (dropTrail (l.dropWhile isPySpace)) = stripList l
  rw [dropTrail_dropTrail]
  rfl

lemma pyStrip_idem (s : String) : pyStrip (pyStrip s) = pyStrip s :=
  congrArg String.mk (stripList_idem s.data)

/-- C9 counterexample: the line `" ##x"` is unchanged by
trailing-terminator stripping (and would not be a header line under that
reading, since it does not start with `"##"`), yet the parser strips the
leading space as well and files it as a header line — line content is
modified beyond terminator removal before classification. -/
theorem C9_counterexample :
    pyStrip " ##x" ≠ stripLineTerminators " ##x" ∧
    stripLineTerminators " ##x" = " ##x" ∧
    pyStarts "##" (stripLineTerminators " ##x") = false ∧
    (processLine ⟨[], []⟩ " ##x").1.header_lines = ["##x"] := by decide

/-- C9 as amended: each raw line is stripped of leading and trailing
Python whitespace (space, tab, CR, LF, vertical tab, form feed) before
classification — `processLine` behaves on a raw line exactly as on its
stripped form — and stripping only removes a whitespace prefix and a
whitespace suffix, leaving the interior content unmodified. -/
theorem C9_lines_fully_whitespace_stripped (st : ParserState) (l : String) :
    processLine st l = processLine st (pyStrip l) ∧
    ∃ pre post, l.data = pre ++ (pyStrip l).data ++ post ∧
      pre.all isPySpace = true ∧ post.all isPySpace = true := by
  constructor
  · unfold processLine
    rw [pyStrip_idem]
  · refine ⟨l.data.takeWhile isPySpace,
      ((l.data.dropWhile isPySpace).reverse.takeWhile isPySpace).reverse, ?_, ?_, ?_⟩
    · conv_lhs => rw [← List.takeWhile_append_dropWhile (p := isPySpace) (l := l.data)]
      rw [List.append_assoc]
      congr 1
      conv_lhs =>
        rw [← List.reverse_reverse (l.data.dropWhile isPySpace),
          ← List.takeWhile_append_dropWhile (p := isPySpace)
            (l := (l.data.dropWhile isPySpace).reverse)]
      rw [List.reverse_append]
      rfl
    · rw [List.all_eq_true]
      intro c hc
      exact List.mem_takeWhile_imp hc
    · rw [List.all_eq_true]
      intro c hc
      rw [List.mem_reverse] at hc
      exact List.mem_takeWhile_imp hc

/-- Witness for C9: a line with leading and trailing whitespace parses
exactly as its stripped form. -/
theorem C9_witness :
    processLine ⟨[], []⟩ " chr1\t3\t.\tA\tT\t.\t.\t. " =
      processLine ⟨[], []⟩ (pyStrip " chr1\t3\t.\tA\tT\t.\t.\t. ") :=
  (C9_lines_fully_whitespace_stripped ⟨[], []⟩ " chr1\t3\t.\tA\tT\t.\t.\t. ").1

